import Mathlib

/-!
# Verification of the kube-insight-logserver core

Shallow embedding of the Go sources of `elastisys/kube-insight-logserver`:

* `pkg/logstore/cassandra` — query splitter (`timeperiods.go`), log store
  (`logstore.go`), writer pool (`writerpool.go`), options (`options.go`);
* `pkg/logstore` — `LogEntry`/`Query` validators (`api.go`);
* `pkg/server` — HTTP query handler (`http.go`) and metrics middleware
  (`metrics.go`).

Timestamps (Go `time.Time`) are modelled as `Int` nanoseconds since Go's zero
time (January 1, year 1, 00:00:00 UTC, which is a UTC midnight); `t = 0`
corresponds to `time.Time.IsZero()`.  Go's `float64` latency values are
modelled as `ℚ`.  Errors (`error` values) are modelled as `Option String` /
`Except String` carrying the message built by the source.
-/

namespace KubeInsight

/-- Nanoseconds in 24 hours (`24 * time.Hour` in Go). -/
def day : Int := 86400000000000

/-- `date` returns a Time truncated down to the date (`t.Truncate(24 * time.Hour)`
in Go, which rounds down to a multiple of 24h since the zero time).
From `timeperiods.go`. -/
def date (t : Int) : Int := t - t % day

/-- `timePeriod` represents a time span with a start and end-time (inclusive).
From `timeperiods.go`. -/
structure timePeriod where
  start : Int
  «end» : Int
deriving DecidableEq

lemma date_emod (t : Int) : date t % day = 0 := by
  unfold date day; omega

lemma date_le (t : Int) : date t ≤ t := by
  unfold date day; omega

lemma lt_date_add_day (t : Int) : t < date t + day := by
  unfold date day; omega

lemma date_date_add_day (t : Int) : date (date t + day) = date t + day := by
  unfold date day; omega

lemma date_mono {t u : Int} (h : t ≤ u) : date t ≤ date u := by
  unfold date day; omega

lemma date_of_aligned {t : Int} (h : t % day = 0) : date t = t := by
  unfold date day at *; omega

/-- A timestamp lying in the day of `t` has the same date as `t`. -/
lemma date_eq_of_between {t u : Int} (h1 : date t ≤ u) (h2 : u < date t + day) :
    date u = date t := by
  unfold date day at *; omega

/-- The `for date(t).Before(date(p.end))` loop of `divideByDays`
(`timeperiods.go` lines 35-42): while the date of the cursor `t` is strictly
before the date of the period's end, emit the period from `t` to the end of
its day (start of day + 24h - 1ns) and advance the cursor to the start of the
next day. -/
def divideLoop (e t : Int) : List timePeriod :=
  if _h : date t < date e then
    { start := t, «end» := date t + day - 1 } :: divideLoop e (date t + day)
  else
    []
termination_by (date e - date t).toNat
decreasing_by
  simp only [date_date_add_day]
  unfold date day at *
  omega

/-- `divideByDays` takes a `timePeriod` and breaks it into sub-`timePeriod`s on
every date border; a period that does not cross a date border is returned
unchanged.  Direct port of `timeperiods.go` lines 28-47. -/
def timePeriod.divideByDays (p : timePeriod) : List timePeriod :=
  if date p.start = date p.end then
    [p]
  else
    divideLoop p.«end» p.start ++ [{ start := date p.«end», «end» := p.«end» }]

/-- `chainFrom s l e` states that the periods of `l`, in order, tile the
inclusive interval `[s, e]` exactly: the first period starts at `s`, each
period is non-empty (start ≤ end), each next period starts one nanosecond
after its predecessor ends, and the last period ends at `e`.  This captures
at once "union equals `[s, e]`" and "the periods do not overlap". -/
def chainFrom : Int → List timePeriod → Int → Prop
  | s, [], e => s = e + 1
  | s, p :: ps, e => p.start = s ∧ p.start ≤ p.«end» ∧ chainFrom (p.«end» + 1) ps e

lemma chainFrom_append {s m e : Int} {l1 l2 : List timePeriod}
    (h1 : chainFrom s l1 m) (h2 : chainFrom (m + 1) l2 e) :
    chainFrom s (l1 ++ l2) e := by
  induction l1 generalizing s with
  | nil => simp only [chainFrom] at h1; simpa [h1] using h2
  | cons p ps ih =>
    obtain ⟨hp, hle, hrest⟩ := h1
    exact ⟨hp, hle, ih hrest⟩

/-- The loop part covers `[t, date e - 1]` whenever it is entered. -/
lemma divideLoop_chain :
    ∀ (n : Nat) (t e : Int), (date e - date t).toNat ≤ n → date t < date e →
      chainFrom t (divideLoop e t) (date e - 1) := by
  intro n
  induction n with
  | zero =>
    intro t e hle hlt
    exfalso; omega
  | succ n ih =>
    intro t e hle hlt
    rw [divideLoop, dif_pos hlt]
    refine ⟨rfl, ?_, ?_⟩
    · show t ≤ date t + day - 1
      have := lt_date_add_day t
      omega
    · have hstep : date t + day - 1 + 1 = date t + day := by
        simp only [day]; omega
      rw [hstep]
      by_cases h2 : date (date t + day) < date e
      · have hd := date_date_add_day t
        have : (date e - date (date t + day)).toNat ≤ n := by
          rw [hd]
          simp only [day] at *
          omega
        exact ih (date t + day) e this h2
      · rw [divideLoop, dif_neg h2]
        have hd := date_date_add_day t
        rw [hd] at h2
        have h1 := date_emod t
        have h2' := date_emod e
        simp only [chainFrom, day] at *
        omega

/-- The loop emits exactly one period per day strictly before the end's date. -/
lemma divideLoop_length :
    ∀ (n : Nat) (t e : Int), (date e - date t).toNat ≤ n →
      (divideLoop e t).length = ((date e - date t) / day).toNat := by
  intro n
  induction n with
  | zero =>
    intro t e hle
    rw [divideLoop]
    have : ¬ date t < date e := by omega
    rw [dif_neg this]
    simp only [List.length_nil, day]
    omega
  | succ n ih =>
    intro t e hle
    rw [divideLoop]
    by_cases hlt : date t < date e
    · rw [dif_pos hlt]
      have hd := date_date_add_day t
      have h1 := date_emod t
      have h2 := date_emod e
      have hbound : (date e - date (date t + day)).toNat ≤ n := by
        rw [hd]; simp only [day] at *; omega
      have hlen := ih (date t + day) e hbound
      rw [hd] at hlen
      rw [List.length_cons, hlen]
      simp only [day] at *
      omega
    · rw [dif_neg hlt]
      simp only [List.length_nil, day] at *
      omega

/-- Every period the loop emits ends at the start of its own day + 24h - 1ns. -/
lemma divideLoop_end_shape :
    ∀ (n : Nat) (t e : Int), (date e - date t).toNat ≤ n →
      ∀ p ∈ divideLoop e t, p.«end» = date p.start + day - 1 := by
  intro n
  induction n with
  | zero =>
    intro t e hle p hp
    rw [divideLoop] at hp
    have : ¬ date t < date e := by omega
    rw [dif_neg this] at hp
    simp at hp
  | succ n ih =>
    intro t e hle p hp
    rw [divideLoop] at hp
    by_cases hlt : date t < date e
    · rw [dif_pos hlt] at hp
      rcases List.mem_cons.mp hp with h | h
      · subst h; rfl
      · have hd := date_date_add_day t
        have h1 := date_emod t
        have h2 := date_emod e
        exact ih (date t + day) e (by rw [hd]; simp only [day] at *; omega) p h
    · rw [dif_neg hlt] at hp
      simp at hp

/-- Starting the loop from a day-aligned cursor, every emitted period starts
at the start of its own day. -/
lemma divideLoop_start_aligned :
    ∀ (n : Nat) (t e : Int), (date e - date t).toNat ≤ n → t % day = 0 →
      ∀ p ∈ divideLoop e t, date p.start = p.start := by
  intro n
  induction n with
  | zero =>
    intro t e hle _ p hp
    rw [divideLoop] at hp
    have : ¬ date t < date e := by omega
    rw [dif_neg this] at hp
    simp at hp
  | succ n ih =>
    intro t e hle halign p hp
    rw [divideLoop] at hp
    by_cases hlt : date t < date e
    · rw [dif_pos hlt] at hp
      have hd := date_date_add_day t
      have h1 := date_emod t
      have h2 := date_emod e
      rcases List.mem_cons.mp hp with h | h
      · subst h
        exact date_of_aligned halign
      · refine ih (date t + day) e (by rw [hd]; simp only [day] at *; omega) ?_ p h
        simp only [day] at *
        omega
    · rw [dif_neg hlt] at hp
      simp at hp

lemma date_lt_of_ne {s e : Int} (hse : s ≤ e) (hne : date s ≠ date e) :
    date s < date e :=
  lt_of_le_of_ne (date_mono hse) hne

/-- `divideByDays` tiles `[s, e]` exactly. -/
lemma divideByDays_chain {s e : Int} (hse : s ≤ e) :
    chainFrom s (timePeriod.divideByDays ⟨s, e⟩) e := by
  unfold timePeriod.divideByDays
  by_cases hd : date s = date e
  · rw [if_pos hd]
    exact ⟨rfl, hse, rfl⟩
  · rw [if_neg hd]
    have hlt : date s < date e := date_lt_of_ne hse hd
    refine chainFrom_append (m := date e - 1)
      (divideLoop_chain (date e - date s).toNat s e le_rfl hlt) ?_
    have : date e - 1 + 1 = date e := by omega
    rw [this]
    exact ⟨rfl, date_le e, rfl⟩

/-- `divideByDays` emits one period per calendar day touched. -/
lemma divideByDays_length {s e : Int} :
    (timePeriod.divideByDays ⟨s, e⟩).length = ((date e - date s) / day).toNat + 1 := by
  unfold timePeriod.divideByDays
  by_cases hd : date s = date e
  · rw [if_pos hd]
    simp only [List.length_singleton, hd]
    simp only [day]
    omega
  · rw [if_neg hd]
    rw [List.length_append, divideLoop_length (date e - date s).toNat s e le_rfl]
    simp only [List.length_singleton]

/-- Every period of `divideByDays` except the last ends at the start of its
own day plus 24h minus 1ns. -/
lemma divideByDays_dropLast_end {s e : Int} :
    ∀ p ∈ (timePeriod.divideByDays ⟨s, e⟩).dropLast, p.«end» = date p.start + day - 1 := by
  unfold timePeriod.divideByDays
  by_cases hd : date s = date e
  · rw [if_pos hd]
    intro p hp
    simp at hp
  · rw [if_neg hd]
    intro p hp
    rw [List.dropLast_concat] at hp
    exact divideLoop_end_shape (date e - date s).toNat s e le_rfl p hp

/-- Every period of `divideByDays` except the first starts at the start of its
own day. -/
lemma divideByDays_tail_aligned {s e : Int} (hse : s ≤ e) :
    ∀ p ∈ (timePeriod.divideByDays ⟨s, e⟩).tail, date p.start = p.start := by
  unfold timePeriod.divideByDays
  by_cases hd : date s = date e
  · rw [if_pos hd]
    intro p hp
    simp at hp
  · rw [if_neg hd]
    have hlt : date s < date e := date_lt_of_ne hse hd
    rw [divideLoop, dif_pos hlt, List.cons_append, List.tail_cons]
    intro p hp
    rcases List.mem_append.mp hp with h | h
    · refine divideLoop_start_aligned (date e - date (date s + day)).toNat
        (date s + day) e le_rfl ?_ p h
      have h1 := date_emod s
      simp only [day] at *
      omega
    · have : p = { start := date e, «end» := e } := by simpa using h
      subst this
      exact date_of_aligned (date_emod e)

/-- Every period of `divideByDays` lies within a single calendar day. -/
lemma divideByDays_same_date {s e : Int} :
    ∀ p ∈ timePeriod.divideByDays ⟨s, e⟩, date p.start = date p.«end» := by
  unfold timePeriod.divideByDays
  by_cases hd : date s = date e
  · rw [if_pos hd]
    intro p hp
    have : p = { start := s, «end» := e } := by simpa using hp
    subst this
    exact hd
  · rw [if_neg hd]
    intro p hp
    rcases List.mem_append.mp hp with h | h
    · have hshape := divideLoop_end_shape (date e - date s).toNat s e le_rfl p h
      rw [hshape]
      refine (date_eq_of_between ?_ ?_).symm
      · simp only [day]; omega
      · simp only [day]; omega
    · have : p = { start := date e, «end» := e } := by simpa using h
      subst this
      show date (date e) = date e
      exact date_of_aligned (date_emod e)

/-- C1: for every time period `(s, e)` with `s ≤ e`, `divideByDays` returns
exactly `date e - date s + 1` (counted in days) periods that tile `[s, e]`
without gaps or overlaps (`chainFrom`: the first period starts at `s`, every
following period starts one nanosecond after its predecessor ends, and the
last period ends at `e`); every non-last period ends at the start of its day
plus 24h minus 1ns; every period after the first starts at the start of its
day; and a period whose start and end fall on the same UTC date is returned
as the single original period unchanged. -/
theorem divideByDays_partition (s e : Int) (hse : s ≤ e) :
    (timePeriod.divideByDays ⟨s, e⟩).length = ((date e - date s) / day).toNat + 1
    ∧ chainFrom s (timePeriod.divideByDays ⟨s, e⟩) e
    ∧ (∀ p ∈ (timePeriod.divideByDays ⟨s, e⟩).dropLast, p.«end» = date p.start + day - 1)
    ∧ (∀ p ∈ (timePeriod.divideByDays ⟨s, e⟩).tail, date p.start = p.start)
    ∧ (date s = date e → timePeriod.divideByDays ⟨s, e⟩ = [⟨s, e⟩]) :=
  ⟨divideByDays_length, divideByDays_chain hse, divideByDays_dropLast_end,
   divideByDays_tail_aligned hse, fun hd => by
    unfold timePeriod.divideByDays
    rw [if_pos hd]⟩

/-- Witness for `divideByDays_partition` at the concrete period
`[0, 100000000000000]` (which crosses one UTC date border). -/
theorem divideByDays_partition_witness :
    ((0 : Int) ≤ 100000000000000)
    ∧ ((timePeriod.divideByDays ⟨0, 100000000000000⟩).length =
        ((date 100000000000000 - date 0) / day).toNat + 1
      ∧ chainFrom 0 (timePeriod.divideByDays ⟨0, 100000000000000⟩) 100000000000000
      ∧ (∀ p ∈ (timePeriod.divideByDays ⟨0, 100000000000000⟩).dropLast,
          p.«end» = date p.start + day - 1)
      ∧ (∀ p ∈ (timePeriod.divideByDays ⟨0, 100000000000000⟩).tail,
          date p.start = p.start)
      ∧ (date 0 = date 100000000000000 →
          timePeriod.divideByDays ⟨0, 100000000000000⟩ = [⟨0, 100000000000000⟩])) :=
  ⟨by decide, divideByDays_partition 0 100000000000000 (by decide)⟩

/-- `Query` represents a query for historical Kubernetes pod log entries
(`pkg/logstore/api.go`).  Timestamps are `Int` nanoseconds; a zero value
corresponds to Go's zero `time.Time`. -/
structure Query where
  Namespace : String
  PodName : String
  ContainerName : String
  StartTime : Int
  EndTime : Int
deriving DecidableEq

/-- `querySplitter.Split` (`timeperiods.go` lines 65-81): divide the query's
time period into day periods and emit one sub-query per day period, copying
the identifying fields. -/
def querySplit (q : Query) : List Query :=
  (timePeriod.divideByDays { start := q.StartTime, «end» := q.EndTime }).map
    fun queryDay =>
      { Namespace := q.Namespace
        PodName := q.PodName
        ContainerName := q.ContainerName
        StartTime := queryDay.start
        EndTime := queryDay.«end» }

/-- The time window of a query, as a `timePeriod`. -/
def Query.period (q : Query) : timePeriod :=
  { start := q.StartTime, «end» := q.EndTime }

lemma querySplit_period_map (q : Query) :
    (querySplit q).map Query.period =
      timePeriod.divideByDays { start := q.StartTime, «end» := q.EndTime } := by
  unfold querySplit
  rw [List.map_map]
  have : (Query.period ∘ fun queryDay : timePeriod =>
      ({ Namespace := q.Namespace, PodName := q.PodName, ContainerName := q.ContainerName,
         StartTime := queryDay.start, EndTime := queryDay.«end» } : Query)) = id := by
    funext d
    rfl
  rw [this, List.map_id]

/-- The sub-query windows tile the original window. -/
lemma querySplit_chain (q : Query) (h : q.StartTime ≤ q.EndTime) :
    chainFrom q.StartTime ((querySplit q).map Query.period) q.EndTime := by
  rw [querySplit_period_map]
  exact divideByDays_chain h

/-- C2: for every valid `Query` (start strictly before end), every sub-query
produced by `querySplitter.Split` copies the query's namespace, pod name and
container name unchanged, and has start and end timestamps on the same single
UTC calendar date (so the partition date that `executeQuery` derives from the
sub-query's start timestamp addresses exactly one partition per container);
the sub-queries are emitted in chronological order and cover exactly
`[q.StartTime, q.EndTime]` (`chainFrom` over the sub-query windows). -/
theorem querySplit_subqueries (q : Query) (hq : q.StartTime < q.EndTime) :
    (∀ sq ∈ querySplit q,
      sq.Namespace = q.Namespace
      ∧ sq.PodName = q.PodName
      ∧ sq.ContainerName = q.ContainerName
      ∧ date sq.StartTime = date sq.EndTime)
    ∧ chainFrom q.StartTime ((querySplit q).map Query.period) q.EndTime := by
  constructor
  · intro sq hsq
    unfold querySplit at hsq
    rcases List.mem_map.mp hsq with ⟨d, hd, rfl⟩
    exact ⟨rfl, rfl, rfl, divideByDays_same_date d hd⟩
  · exact querySplit_chain q (le_of_lt hq)

/-- Witness for `querySplit_subqueries` at a concrete query crossing a date
border. -/
theorem querySplit_subqueries_witness :
    ((Query.mk "default" "pod-1" "ctr" 0 100000000000000).StartTime
        < (Query.mk "default" "pod-1" "ctr" 0 100000000000000).EndTime)
    ∧ ((∀ sq ∈ querySplit (Query.mk "default" "pod-1" "ctr" 0 100000000000000),
        sq.Namespace = (Query.mk "default" "pod-1" "ctr" 0 100000000000000).Namespace
        ∧ sq.PodName = (Query.mk "default" "pod-1" "ctr" 0 100000000000000).PodName
        ∧ sq.ContainerName = (Query.mk "default" "pod-1" "ctr" 0 100000000000000).ContainerName
        ∧ date sq.StartTime = date sq.EndTime)
      ∧ chainFrom (Query.mk "default" "pod-1" "ctr" 0 100000000000000).StartTime
          ((querySplit (Query.mk "default" "pod-1" "ctr" 0 100000000000000)).map Query.period)
          (Query.mk "default" "pod-1" "ctr" 0 100000000000000).EndTime) :=
  ⟨by decide, querySplit_subqueries (Query.mk "default" "pod-1" "ctr" 0 100000000000000) (by decide)⟩

/-- `LogRow` represents a single log entry in a `QueryResult`
(`pkg/logstore/api.go`). -/
structure LogRow where
  time : Int
  log : String
deriving DecidableEq

/-- `QueryError.Error()` of `logstore.go`: `"query failed: <message>: <cause>"`. -/
def queryErrorMessage (message cause : String) : String :=
  "query failed: " ++ message ++ ": " ++ cause

/-- The sub-query loop of `LogStore.Query` (`logstore.go` lines 105-115):
run each sub-query through the driver (`executeQuery`), abort with a
`QueryError` tagged "query execution" on the first failure, and otherwise
append the returned rows in sub-query order. -/
def queryLoop (executeQuery : Query → Except String (List LogRow)) :
    List Query → List LogRow → Except String (List LogRow)
  | [], logRows => .ok logRows
  | subQuery :: rest, logRows =>
    match executeQuery subQuery with
    | .error err => .error (queryErrorMessage "query execution" err)
    | .ok rows => queryLoop executeQuery rest (logRows ++ rows)

/-- `LogStore.Query` (`logstore.go` lines 100-118), with the driver call
`executeQuery` abstracted as an oracle: split the query into per-day
sub-queries and concatenate their results. -/
def logStoreQuery (executeQuery : Query → Except String (List LogRow)) (q : Query) :
    Except String (List LogRow) :=
  queryLoop executeQuery (querySplit q) []

/-- Rows are non-decreasing in time. -/
def rowsOrdered (l : List LogRow) : Prop :=
  l.Pairwise fun a b => a.time ≤ b.time

lemma queryLoop_ok_sorted (executeQuery : Query → Except String (List LogRow))
    (rows : Query → List LogRow) :
    ∀ (qs : List Query) (s e : Int) (acc : List LogRow),
      chainFrom s (qs.map Query.period) e →
      (∀ sq ∈ qs, executeQuery sq = .ok (rows sq)
        ∧ rowsOrdered (rows sq)
        ∧ ∀ r ∈ rows sq, sq.StartTime ≤ r.time ∧ r.time ≤ sq.EndTime) →
      rowsOrdered acc →
      (∀ r ∈ acc, r.time < s) →
      queryLoop executeQuery qs acc = .ok (acc ++ qs.flatMap rows)
        ∧ rowsOrdered (acc ++ qs.flatMap rows) := by
  intro qs
  induction qs with
  | nil =>
    intro s e acc _ _ hacc _
    simp only [queryLoop, List.flatMap_nil, List.append_nil]
    exact ⟨trivial, hacc⟩
  | cons sq rest ih =>
    intro s e acc hchain hexec hacc hbound
    obtain ⟨hok, hrows, hwin⟩ := hexec sq (List.mem_cons_self _ _)
    simp only [List.map_cons, chainFrom, Query.period] at hchain
    obtain ⟨hstart, hle, hrest⟩ := hchain
    have hacc' : rowsOrdered (acc ++ rows sq) := by
      refine List.pairwise_append.mpr ⟨hacc, hrows, ?_⟩
      intro a ha b hb
      have h1 := hbound a ha
      have h2 := (hwin b hb).1
      omega
    have hbound' : ∀ r ∈ acc ++ rows sq, r.time < sq.EndTime + 1 := by
      intro r hr
      rcases List.mem_append.mp hr with h | h
      · have := hbound r h
        omega
      · have := (hwin r h).2
        omega
    have hexec' : ∀ q ∈ rest, executeQuery q = .ok (rows q)
        ∧ rowsOrdered (rows q)
        ∧ ∀ r ∈ rows q, q.StartTime ≤ r.time ∧ r.time ≤ q.EndTime :=
      fun q hq => hexec q (List.mem_cons_of_mem _ hq)
    have := ih (sq.EndTime + 1) e (acc ++ rows sq) hrest hexec' hacc' hbound'
    simp only [queryLoop, hok, List.flatMap_cons, List.append_assoc] at this ⊢
    exact this

/-- C3: for every valid `Query` (start strictly before end), if the driver
answers each sub-query with rows that are ascending in time and lie within
that sub-query's `[start, end]` window, then `LogStore.Query` succeeds, its
result is exactly the concatenation of the per-sub-query results in the order
`Split` emits them, and that row sequence is monotonically non-decreasing in
time across the whole result. -/
theorem logStoreQuery_sorted (executeQuery : Query → Except String (List LogRow))
    (rows : Query → List LogRow) (q : Query)
    (hq : q.StartTime < q.EndTime)
    (hdriver : ∀ sq ∈ querySplit q, executeQuery sq = .ok (rows sq)
      ∧ rowsOrdered (rows sq)
      ∧ ∀ r ∈ rows sq, sq.StartTime ≤ r.time ∧ r.time ≤ sq.EndTime) :
    logStoreQuery executeQuery q = .ok ((querySplit q).flatMap rows)
      ∧ rowsOrdered ((querySplit q).flatMap rows) := by
  have hchain := querySplit_chain q (le_of_lt hq)
  have := queryLoop_ok_sorted executeQuery rows (querySplit q)
    q.StartTime q.EndTime [] hchain hdriver (by simp [rowsOrdered]) (by simp)
  simpa [logStoreQuery] using this

/-- Witness for `logStoreQuery_sorted`: a driver that answers every sub-query
of a concrete query crossing a date border with an empty (trivially ordered,
trivially in-window) row list. -/
theorem logStoreQuery_sorted_witness :
    ((Query.mk "default" "pod-1" "ctr" 0 100000000000000).StartTime
        < (Query.mk "default" "pod-1" "ctr" 0 100000000000000).EndTime)
    ∧ (logStoreQuery (fun _ => .ok ([] : List LogRow))
          (Query.mk "default" "pod-1" "ctr" 0 100000000000000) =
        .ok ((querySplit (Query.mk "default" "pod-1" "ctr" 0 100000000000000)).flatMap
          fun _ => ([] : List LogRow))
      ∧ rowsOrdered ((querySplit (Query.mk "default" "pod-1" "ctr" 0 100000000000000)).flatMap
          fun _ => ([] : List LogRow))) :=
  ⟨by decide,
   logStoreQuery_sorted (fun _ => .ok ([] : List LogRow)) (fun _ => ([] : List LogRow))
     (Query.mk "default" "pod-1" "ctr" 0 100000000000000) (by decide)
     (fun sq _ => ⟨rfl, by simp [rowsOrdered], by intro r hr; simp at hr⟩)⟩

/-! ## Writer pool (`writerpool.go`)

Channels are modelled by their observable contents: a result channel is the
list of values posted to it (the source's `writeResultChan` has capacity 1
and receives at most one value), and the work channel is the FIFO list of
queued `insertOperation`s.  Closing an already-closed Go channel panics; a
panic is modelled as the `.error` branch of `Except`. -/

/-- A single CQL insert statement with placeholders (`cqlInsert`). -/
structure cqlInsert where
  insertStatement : String
  placeholders : List String
deriving DecidableEq

/-- Pool state: the buffered work channel, the started flag, and, for each
writer, whether its stop channel has been closed. -/
structure writerPool where
  workChan : List cqlInsert
  started : Bool
  writersStopClosed : List Bool
deriving DecidableEq

/-- The error message of `writerPool.write` on a stopped pool
(`writerpool.go` line 129). -/
def writeRejectedMessage : String := "write rejected: writerPool has been stopped"

/-- `writerPool.write` (`writerpool.go` lines 126-142): allocate a result
channel of capacity 1; if the pool is not started, post the rejection error
on it and return; otherwise enqueue the insert operation on the work channel
and return the (still empty) result channel.  Returns the contents posted to
the result channel so far, together with the new pool state. -/
def writerPool.write (pool : writerPool) (insertStatement : String)
    (placeholders : List String) : List String × writerPool :=
  if ¬ pool.started then
    ([writeRejectedMessage], pool)
  else
    ([], { pool with workChan := pool.workChan ++ [⟨insertStatement, placeholders⟩] })

/-- `writer.stop` (`writerpool.go` lines 61-63): `close(w.stopChan)`.
Closing an already-closed channel panics, modelled as `.error`. -/
def writer.stop (stopChanClosed : Bool) : Except String Bool :=
  if stopChanClosed then .error "close of closed channel"
  else .ok true

/-- Close the stop channel of every writer in order, propagating a panic. -/
def stopAllWriters : List Bool → Except String (List Bool)
  | [] => .ok []
  | w :: rest => do
    let w' ← writer.stop w
    let rest' ← stopAllWriters rest
    .ok (w' :: rest')

/-- `writerPool.stop` (`writerpool.go` lines 113-119): call `writer.stop` on
every writer, then mark the pool stopped.  A panic in any `writer.stop`
aborts the call (the `started` flag is then never reset). -/
def writerPool.stop (pool : writerPool) : Except String writerPool := do
  let writers' ← stopAllWriters pool.writersStopClosed
  .ok { pool with writersStopClosed := writers', started := false }

/-- C5: a `writerPool.write` call on a stopped pool returns a result channel
holding exactly one "write rejected" error, and the work queue is unchanged
(in fact the entire pool state is unchanged). -/
theorem writerPool_write_stopped (pool : writerPool) (stmt : String)
    (args : List String) (hstopped : pool.started = false) :
    (pool.write stmt args).1 = [writeRejectedMessage]
    ∧ (pool.write stmt args).2.workChan = pool.workChan := by
  unfold writerPool.write
  rw [hstopped]
  exact ⟨rfl, rfl⟩

/-- Witness for `writerPool_write_stopped` on a concrete stopped pool. -/
theorem writerPool_write_stopped_witness :
    ((writerPool.mk [⟨"INSERT", ["a"]⟩] false [true]).started = false)
    ∧ (((writerPool.mk [⟨"INSERT", ["a"]⟩] false [true]).write "INSERT" ["b"]).1 =
        [writeRejectedMessage]
      ∧ ((writerPool.mk [⟨"INSERT", ["a"]⟩] false [true]).write "INSERT" ["b"]).2.workChan =
        (writerPool.mk [⟨"INSERT", ["a"]⟩] false [true]).workChan) :=
  ⟨rfl, writerPool_write_stopped (writerPool.mk [⟨"INSERT", ["a"]⟩] false [true])
    "INSERT" ["b"] rfl⟩

/-- Counterexample to C6: on a pool with one writer, the first `stop`
succeeds, but a second `stop` panics, because `writer.stop` runs
`close(w.stopChan)` on a channel the first call already closed.  `stop` is
therefore not idempotent. -/
theorem writerPool_stop_stop_panics :
    (writerPool.stop (writerPool.mk [] true [false])).bind writerPool.stop =
      .error "close of closed channel" := rfl

/-- C6 amended: a first `writerPool.stop` on a running pool (all writer stop
channels still open) succeeds, closes every writer's stop channel and marks
the pool stopped, and `writerPool.write` calls on the resulting pool fail
fast with the rejection error without touching the work queue; but `stop` is
not idempotent: a second `stop` on a pool whose writers' stop channels are
already closed panics (Go's `close` on a closed channel). -/
theorem writerPool_stop_behaviour (pool : writerPool)
    (hopen : ∀ w ∈ pool.writersStopClosed, w = false) :
    ∃ pool', pool.stop = .ok pool'
      ∧ pool'.started = false
      ∧ pool'.workChan = pool.workChan
      ∧ (∀ w ∈ pool'.writersStopClosed, w = true)
      ∧ pool'.writersStopClosed.length = pool.writersStopClosed.length
      ∧ (∀ stmt args, (pool'.write stmt args).1 = [writeRejectedMessage]
          ∧ (pool'.write stmt args).2.workChan = pool'.workChan)
      ∧ (pool.writersStopClosed ≠ [] →
          pool'.stop = .error "close of closed channel") := by
  have hstopAll : ∀ ws : List Bool, (∀ w ∈ ws, w = false) →
      stopAllWriters ws = .ok (ws.map fun _ => true) := by
    intro ws
    induction ws with
    | nil => intro _; rfl
    | cons w rest ih =>
      intro hws
      have hw : w = false := hws w (List.mem_cons_self _ _)
      have hrest := ih fun x hx => hws x (List.mem_cons_of_mem _ hx)
      subst hw
      simp only [stopAllWriters, writer.stop, if_neg Bool.false_ne_true, hrest,
        List.map_cons]
      rfl
  refine ⟨{ workChan := pool.workChan, started := false,
            writersStopClosed := pool.writersStopClosed.map (fun _ => true) },
          ?_, rfl, rfl, ?_, ?_, ?_, ?_⟩
  · unfold writerPool.stop
    rw [hstopAll pool.writersStopClosed hopen]
    rfl
  · intro w hw
    rcases List.mem_map.mp hw with ⟨x, _, rfl⟩
    rfl
  · exact List.length_map _ _
  · intro stmt args
    unfold writerPool.write
    exact ⟨rfl, rfl⟩
  · intro hne
    unfold writerPool.stop
    match hws : pool.writersStopClosed with
    | [] => exact absurd hws hne
    | w :: rest =>
      simp only [List.map_cons, stopAllWriters, writer.stop, if_pos rfl]
      rfl

/-- Witness for `writerPool_stop_behaviour` on a concrete running pool with
one writer. -/
theorem writerPool_stop_behaviour_witness :
    (∀ w ∈ (writerPool.mk [] true [false]).writersStopClosed, w = false)
    ∧ (∃ pool', (writerPool.mk [] true [false]).stop = .ok pool'
      ∧ pool'.started = false
      ∧ pool'.workChan = (writerPool.mk [] true [false]).workChan
      ∧ (∀ w ∈ pool'.writersStopClosed, w = true)
      ∧ pool'.writersStopClosed.length =
          (writerPool.mk [] true [false]).writersStopClosed.length
      ∧ (∀ stmt args, (pool'.write stmt args).1 = [writeRejectedMessage]
          ∧ (pool'.write stmt args).2.workChan = pool'.workChan)
      ∧ ((writerPool.mk [] true [false]).writersStopClosed ≠ [] →
          pool'.stop = .error "close of closed channel")) :=
  ⟨by decide, writerPool_stop_behaviour (writerPool.mk [] true [false]) (by decide)⟩

/-! ## `LogStore.Write` (`logstore.go` lines 80-97)

`Write` loops over the entries, submitting one insert per entry to the writer
pool and collecting one result channel per entry (lines 83-86); it then
receives from each channel in submission order and returns on the first
non-nil error (lines 89-94).  A `results` list models, positionally, the
value that each per-entry channel yields — one element per submitted entry,
in submission order. -/

/-- `InsertError.Error()` of `logstore.go`: `"insert failed: <cause>"`. -/
def insertErrorMessage (cause : String) : String := "insert failed: " ++ cause

/-- The await loop of `LogStore.Write` (`logstore.go` lines 89-94): receive
from each result channel in submission order; on the first non-nil error,
immediately return it wrapped as an `InsertError`; if all yield nil, return
nil. -/
def awaitResults : List (Option String) → Option String
  | [] => none
  | some err :: _ => some (insertErrorMessage err)
  | none :: rest => awaitResults rest

/-- The number of result channels the await loop of `LogStore.Write` actually
receives from before returning (each iteration performs one receive; the
loop exits early on the first error). -/
def awaitedCount : List (Option String) → Nat
  | [] => 0
  | some _ :: _ => 1
  | none :: rest => awaitedCount rest + 1

/-- Counterexample to C4: with two submitted inserts whose channels yield
`some "boom"` and `nil`, `Write` returns the first error wrapped as an
`InsertError` but receives from only 1 of the 2 channels: the remaining
channel is NOT drained (the loop returns from inside the `range`
iteration). -/
theorem logStoreWrite_not_drained :
    awaitResults [some "boom", none] = some (insertErrorMessage "boom")
    ∧ awaitedCount [some "boom", none] = 1
    ∧ awaitedCount [some "boom", none] ≠
        ([some "boom", none] : List (Option String)).length :=
  ⟨rfl, rfl, by decide⟩

/-- C4 amended: `LogStore.Write` submits one insert per entry and awaits the
per-entry result channels in submission order; the first error observed is
wrapped as an `InsertError` and returned immediately — the remaining (not yet
awaited) channels are NOT drained (only the channels up to and including the
first erroring one are received from); if every channel yields nil, `Write`
returns nil after draining all of them. -/
lemma awaitResults_all_none :
    ∀ results : List (Option String), (∀ r ∈ results, r = none) →
      awaitResults results = none ∧ awaitedCount results = results.length := by
  intro results
  induction results with
  | nil => exact fun _ => ⟨rfl, rfl⟩
  | cons r rest ih =>
    intro hnil
    have hr : r = none := hnil r (List.mem_cons_self _ _)
    subst hr
    have := ih fun x hx => hnil x (List.mem_cons_of_mem _ hx)
    simp only [awaitResults, awaitedCount, List.length_cons]
    exact ⟨this.1, by omega⟩

lemma awaitResults_first_err :
    ∀ (pre post : List (Option String)) (err : String), (∀ r ∈ pre, r = none) →
      awaitResults (pre ++ some err :: post) = some (insertErrorMessage err)
      ∧ awaitedCount (pre ++ some err :: post) = pre.length + 1 := by
  intro pre
  induction pre with
  | nil => exact fun _ _ _ => ⟨rfl, rfl⟩
  | cons r rest ih =>
    intro post err hnil
    have hr : r = none := hnil r (List.mem_cons_self _ _)
    subst hr
    obtain ⟨ha, hc⟩ := ih post err fun x hx => hnil x (List.mem_cons_of_mem _ hx)
    simp only [List.cons_append, awaitResults, awaitedCount, List.length_cons,
      List.append_eq]
    refine ⟨ha, ?_⟩
    rw [hc]

theorem logStoreWrite_first_error (results : List (Option String)) :
    ((∀ r ∈ results, r = none) →
      awaitResults results = none ∧ awaitedCount results = results.length)
    ∧ (∀ (pre post : List (Option String)) (err : String),
        results = pre ++ some err :: post → (∀ r ∈ pre, r = none) →
        awaitResults results = some (insertErrorMessage err)
        ∧ awaitedCount results = pre.length + 1) :=
  ⟨awaitResults_all_none results,
   fun pre post err heq hnil => heq ▸ awaitResults_first_err pre post err hnil⟩

/-- Witness for `logStoreWrite_first_error`: channels yielding `[nil, some "x"]`. -/
theorem logStoreWrite_first_error_witness :
    ((∀ r ∈ ([none, some "x"] : List (Option String)), r = none) →
      awaitResults [none, some "x"] = none
      ∧ awaitedCount [none, some "x"] = ([none, some "x"] : List (Option String)).length)
    ∧ (awaitResults [none, some "x"] = some (insertErrorMessage "x")
      ∧ awaitedCount [none, some "x"] = [(none : Option String)].length + 1) :=
  ⟨(logStoreWrite_first_error [none, some "x"]).1,
   (logStoreWrite_first_error [none, some "x"]).2 [none] [] "x" rfl (by decide)⟩

/-! ## Options (`options.go`) -/

/-- Valid replication strategies (`options.go` lines 16-19); `ReplicationStrategy`
is a string type in the source. -/
def SimpleStrategy : String := "SimpleStrategy"

def NetworkTopologyStrategy : String := "NetworkTopologyStrategy"

/-- `ReplicationStrategy.Validate` (`options.go` lines 26-34).  The error text
is Go's `%s` rendering of the slice of valid strategies. -/
def ReplicationStrategy.Validate (r : String) : Option String :=
  if r = SimpleStrategy ∨ r = NetworkTopologyStrategy then none
  else some "invalid replication strategy: must be one of [SimpleStrategy NetworkTopologyStrategy]"

/-- `Options` (`options.go` lines 101-126).  The Go
`ReplicationFactorMap` (`map[string]int`) is modelled as an association
list; `Validate` only observes its size and key set. -/
structure Options where
  Hosts : List String
  CQLPort : Int
  Keyspace : String
  LogTableName : String
  ReplicationStrategy : String
  ReplicationFactors : List (String × Int)
  WriteConcurrency : Int
  WriteBufferSize : Int
deriving DecidableEq

/-- The trailing write-settings checks of `Options.Validate`
(`options.go` lines 158-165), reached after the strategy `switch`. -/
def Options.validateWriteSettings (opts : Options) : Option String :=
  if opts.WriteConcurrency ≤ 0 then
    some "WriteConcurrency must be a positive value"
  else if opts.WriteBufferSize ≤ 0 then
    some "WriteBufferSize must be a positive value"
  else none

/-- `Options.Validate` (`options.go` lines 129-166), a direct port of the
cascade of early-return checks. -/
def Options.Validate (opts : Options) : Option String :=
  if opts.Hosts.length < 1 then
    some "at least one cassandra host must be given"
  else if opts.CQLPort ≤ 0 ∨ opts.CQLPort > 65535 then
    some "CQL port must be in range [1,65535]"
  else if opts.Keyspace = "" then
    some "no keyspace given"
  else if opts.LogTableName = "" then
    some "no log table name given"
  else
    match ReplicationStrategy.Validate opts.ReplicationStrategy with
    | some err => some err
    | none =>
      if opts.ReplicationStrategy = SimpleStrategy then
        if opts.ReplicationFactors.length ≠ 1 then
          some "for SimpleStrategy, one single replication factor must be given"
        else if ¬ (opts.ReplicationFactors.map Prod.fst).contains "cluster" then
          some "for SimpleStrategy, a replication factor with key 'cluster' is required"
        else opts.validateWriteSettings
      else if opts.ReplicationStrategy = NetworkTopologyStrategy then
        if opts.ReplicationFactors.length < 1 then
          some "for NetworkTopologyStrategy, one replication factor must be given for each datacenter"
        else opts.validateWriteSettings
      else opts.validateWriteSettings

/-- Return the message of the first failed check of an ordered constraint
table (spec side: "a single error naming the first violated constraint"). -/
def firstFailure : List (Bool × String) → Option String
  | [] => none
  | (ok, msg) :: rest => if ok then firstFailure rest else some msg

/-- The constraint table of §4.B of the spec, in the order the claim lists
the constraints. -/
def optionsConstraintTable (opts : Options) : List (Bool × String) :=
  [ (decide (1 ≤ opts.Hosts.length),
      "at least one cassandra host must be given"),
    (decide (1 ≤ opts.CQLPort ∧ opts.CQLPort ≤ 65535),
      "CQL port must be in range [1,65535]"),
    (decide (opts.Keyspace ≠ ""),
      "no keyspace given"),
    (decide (opts.LogTableName ≠ ""),
      "no log table name given"),
    (decide (opts.ReplicationStrategy = SimpleStrategy
        ∨ opts.ReplicationStrategy = NetworkTopologyStrategy),
      "invalid replication strategy: must be one of [SimpleStrategy NetworkTopologyStrategy]"),
    (decide (opts.ReplicationStrategy = SimpleStrategy →
        opts.ReplicationFactors.length = 1),
      "for SimpleStrategy, one single replication factor must be given"),
    (decide (opts.ReplicationStrategy = SimpleStrategy →
        (opts.ReplicationFactors.map Prod.fst).contains "cluster" = true),
      "for SimpleStrategy, a replication factor with key 'cluster' is required"),
    (decide (opts.ReplicationStrategy = NetworkTopologyStrategy →
        1 ≤ opts.ReplicationFactors.length),
      "for NetworkTopologyStrategy, one replication factor must be given for each datacenter"),
    (decide (1 ≤ opts.WriteConcurrency),
      "WriteConcurrency must be a positive value"),
    (decide (1 ≤ opts.WriteBufferSize),
      "WriteBufferSize must be a positive value") ]

/-- C7: `Options.Validate` returns `nil` exactly when all constraints hold
(hosts non-empty; port in 1..65535; keyspace and log table name non-empty;
replication strategy is SimpleStrategy or NetworkTopologyStrategy; for
SimpleStrategy exactly one replication factor entry, with key "cluster"; for
NetworkTopologyStrategy at least one entry; write concurrency ≥ 1; write
buffer size ≥ 1); otherwise it returns the `OptionError` message naming the
first violated constraint in that order (`firstFailure` over the ordered
constraint table). -/
lemma firstFailure_cons_true {ok : Bool} {msg : String} {rest : List (Bool × String)}
    (h : ok = true) : firstFailure ((ok, msg) :: rest) = firstFailure rest := by
  simp [firstFailure, h]

lemma firstFailure_cons_false {ok : Bool} {msg : String} {rest : List (Bool × String)}
    (h : ok = false) : firstFailure ((ok, msg) :: rest) = some msg := by
  simp [firstFailure, h]

lemma firstFailure_eq_none (l : List (Bool × String)) :
    firstFailure l = none ↔ ∀ x ∈ l, x.1 = true := by
  induction l with
  | nil => simp [firstFailure]
  | cons x rest ih =>
    obtain ⟨ok, msg⟩ := x
    by_cases hok : ok = true
    · rw [firstFailure_cons_true hok]
      simp [hok, ih]
    · rw [firstFailure_cons_false (by simpa using hok)]
      simp only [List.forall_mem_cons]
      constructor
      · intro h
        exact absurd h (by simp)
      · intro h
        exact absurd h.1 hok

lemma validateWriteSettings_firstFailure (opts : Options) :
    opts.validateWriteSettings = firstFailure
      [(decide (1 ≤ opts.WriteConcurrency), "WriteConcurrency must be a positive value"),
       (decide (1 ≤ opts.WriteBufferSize), "WriteBufferSize must be a positive value")] := by
  unfold Options.validateWriteSettings
  by_cases h9 : opts.WriteConcurrency ≤ 0
  · rw [if_pos h9, firstFailure_cons_false (by simp; omega)]
  · rw [if_neg h9, firstFailure_cons_true (by simp; omega)]
    by_cases h10 : opts.WriteBufferSize ≤ 0
    · rw [if_pos h10, firstFailure_cons_false (by simp; omega)]
    · rw [if_neg h10, firstFailure_cons_true (by simp; omega)]
      rfl

lemma options_validate_eq_firstFailure (opts : Options) :
    opts.Validate = firstFailure (optionsConstraintTable opts) := by
  simp only [Options.Validate, optionsConstraintTable]
  by_cases h1 : opts.Hosts.length < 1
  · rw [if_pos h1, firstFailure_cons_false (by rw [decide_eq_false_iff_not]; omega)]
  · rw [if_neg h1, firstFailure_cons_true (by rw [decide_eq_true_eq]; omega)]
    by_cases h2 : opts.CQLPort ≤ 0 ∨ opts.CQLPort > 65535
    · rw [if_pos h2, firstFailure_cons_false (by rw [decide_eq_false_iff_not]; omega)]
    · rw [if_neg h2, firstFailure_cons_true (by rw [decide_eq_true_eq]; omega)]
      by_cases h3 : opts.Keyspace = ""
      · rw [if_pos h3, firstFailure_cons_false (by simp [h3])]
      · rw [if_neg h3, firstFailure_cons_true (by simp [h3])]
        by_cases h4 : opts.LogTableName = ""
        · rw [if_pos h4, firstFailure_cons_false (by simp [h4])]
        · rw [if_neg h4, firstFailure_cons_true (by simp [h4])]
          by_cases h5 : opts.ReplicationStrategy = SimpleStrategy
              ∨ opts.ReplicationStrategy = NetworkTopologyStrategy
          · rw [ReplicationStrategy.Validate, if_pos h5,
              firstFailure_cons_true (by simp [h5])]
            dsimp only
            by_cases hS : opts.ReplicationStrategy = SimpleStrategy
            · have hSnotNT : opts.ReplicationStrategy ≠ NetworkTopologyStrategy := by
                rw [hS]; decide
              rw [if_pos hS]
              by_cases h6 : opts.ReplicationFactors.length ≠ 1
              · rw [if_pos h6, firstFailure_cons_false (by simp [hS]; omega)]
              · rw [if_neg h6, firstFailure_cons_true (by simp [hS]; omega)]
                by_cases h7 : ¬ (opts.ReplicationFactors.map Prod.fst).contains "cluster"
                · rw [if_pos h7, firstFailure_cons_false (by simp [hS]; simpa using h7)]
                · rw [if_neg h7,
                    firstFailure_cons_true
                      (by simp; exact Or.inr (by simpa using not_not.mp h7)),
                    firstFailure_cons_true (by simp [hSnotNT])]
                  exact validateWriteSettings_firstFailure opts
            · have hNT : opts.ReplicationStrategy = NetworkTopologyStrategy := by
                rcases h5 with h | h
                · exact absurd h hS
                · exact h
              rw [if_neg hS, if_pos hNT,
                firstFailure_cons_true (by simp [hS]),
                firstFailure_cons_true (by simp [hS])]
              by_cases h8 : opts.ReplicationFactors.length < 1
              · rw [if_pos h8, firstFailure_cons_false
                  (by rw [decide_eq_false_iff_not]
                      simp only [hNT, eq_self_iff_true, true_implies]
                      omega)]
              · rw [if_neg h8, firstFailure_cons_true
                  (by rw [decide_eq_true_eq]
                      simp only [hNT, eq_self_iff_true, true_implies]
                      omega)]
                exact validateWriteSettings_firstFailure opts
          · rw [ReplicationStrategy.Validate, if_neg h5,
              firstFailure_cons_false (by simpa using h5)]

theorem options_validate_first_violation (opts : Options) :
    (opts.Validate = none ↔
      (1 ≤ opts.Hosts.length
      ∧ (1 ≤ opts.CQLPort ∧ opts.CQLPort ≤ 65535)
      ∧ opts.Keyspace ≠ ""
      ∧ opts.LogTableName ≠ ""
      ∧ (opts.ReplicationStrategy = SimpleStrategy
          ∨ opts.ReplicationStrategy = NetworkTopologyStrategy)
      ∧ (opts.ReplicationStrategy = SimpleStrategy →
          opts.ReplicationFactors.length = 1
          ∧ (opts.ReplicationFactors.map Prod.fst).contains "cluster" = true)
      ∧ (opts.ReplicationStrategy = NetworkTopologyStrategy →
          1 ≤ opts.ReplicationFactors.length)
      ∧ 1 ≤ opts.WriteConcurrency
      ∧ 1 ≤ opts.WriteBufferSize))
    ∧ opts.Validate = firstFailure (optionsConstraintTable opts) := by
  refine ⟨?_, options_validate_eq_firstFailure opts⟩
  rw [options_validate_eq_firstFailure opts, firstFailure_eq_none]
  simp only [optionsConstraintTable, List.forall_mem_cons, List.forall_mem_nil,
    and_true, decide_eq_true_eq]
  tauto

/-! ## Validators (`pkg/logstore/api.go`) -/

/-- `KubernetesMetadata` carries metadata about a `LogEntry`. -/
structure KubernetesMetadata where
  DockerID : String
  Labels : List (String × String)
  Host : String
  PodName : String
  ContainerName : String
  PodID : String
  Namespace : String
deriving DecidableEq

/-- `LogEntry` represents a single log row captured from a container.
The Go `Date` field is a `float64` of epoch seconds, accepted but never
inspected by the core; it is modelled as `ℚ`.  `Time` is `Int` nanoseconds,
with `0` standing for Go's zero `time.Time` (`Time.IsZero()`). -/
structure LogEntry where
  Date : ℚ
  Kubernetes : KubernetesMetadata
  Log : String
  Stream : String
  Time : Int
deriving DecidableEq

/-- `LogEntry.Validate` (`api.go`): direct port of the cascade of checks. -/
def LogEntry.Validate (l : LogEntry) : Option String :=
  if l.Kubernetes.Namespace = "" then
    some "log entry missing namespace field"
  else if l.Kubernetes.PodName = "" then
    some "log entry missing pod_name field"
  else if l.Kubernetes.ContainerName = "" then
    some "log entry missing container_name field"
  else if l.Time = 0 then
    some "log entry missing time field"
  else
    none

/-- `Query.Validate` (`api.go`): direct port.  `time.Time.IsZero()` is
`= 0`, and `!q.StartTime.Before(q.EndTime)` is `¬ StartTime < EndTime`. -/
def Query.Validate (q : Query) : Option String :=
  if q.Namespace = "" then
    some "missing query parameter: namespace"
  else if q.PodName = "" then
    some "missing query parameter: pod_name"
  else if q.ContainerName = "" then
    some "missing query parameter: container_name"
  else if q.StartTime = 0 then
    some "missing query parameter: start_time"
  else if q.EndTime = 0 then
    some "missing query parameter: end_time"
  else if ¬ q.StartTime < q.EndTime then
    some "query time-interval: start_time must be earlier than end_time"
  else
    none

/-- The ordered constraint table of §4.G for `LogEntry` (spec side). -/
def logEntryConstraintTable (l : LogEntry) : List (Bool × String) :=
  [ (decide (l.Kubernetes.Namespace ≠ ""), "log entry missing namespace field"),
    (decide (l.Kubernetes.PodName ≠ ""), "log entry missing pod_name field"),
    (decide (l.Kubernetes.ContainerName ≠ ""), "log entry missing container_name field"),
    (decide (l.Time ≠ 0), "log entry missing time field") ]

/-- The ordered constraint table of §4.G for `Query` (spec side). -/
def queryConstraintTable (q : Query) : List (Bool × String) :=
  [ (decide (q.Namespace ≠ ""), "missing query parameter: namespace"),
    (decide (q.PodName ≠ ""), "missing query parameter: pod_name"),
    (decide (q.ContainerName ≠ ""), "missing query parameter: container_name"),
    (decide (q.StartTime ≠ 0), "missing query parameter: start_time"),
    (decide (q.EndTime ≠ 0), "missing query parameter: end_time"),
    (decide (q.StartTime < q.EndTime),
      "query time-interval: start_time must be earlier than end_time") ]

lemma logEntry_validate_eq_firstFailure (l : LogEntry) :
    l.Validate = firstFailure (logEntryConstraintTable l) := by
  simp only [LogEntry.Validate, logEntryConstraintTable]
  by_cases h1 : l.Kubernetes.Namespace = ""
  · rw [if_pos h1, firstFailure_cons_false (by simp [h1])]
  · rw [if_neg h1, firstFailure_cons_true (by simp [h1])]
    by_cases h2 : l.Kubernetes.PodName = ""
    · rw [if_pos h2, firstFailure_cons_false (by simp [h2])]
    · rw [if_neg h2, firstFailure_cons_true (by simp [h2])]
      by_cases h3 : l.Kubernetes.ContainerName = ""
      · rw [if_pos h3, firstFailure_cons_false (by simp [h3])]
      · rw [if_neg h3, firstFailure_cons_true (by simp [h3])]
        by_cases h4 : l.Time = 0
        · rw [if_pos h4, firstFailure_cons_false (by simp [h4])]
        · rw [if_neg h4, firstFailure_cons_true (by simp [h4])]
          rfl

lemma query_validate_eq_firstFailure (q : Query) :
    q.Validate = firstFailure (queryConstraintTable q) := by
  simp only [Query.Validate, queryConstraintTable]
  by_cases h1 : q.Namespace = ""
  · rw [if_pos h1, firstFailure_cons_false (by simp [h1])]
  · rw [if_neg h1, firstFailure_cons_true (by simp [h1])]
    by_cases h2 : q.PodName = ""
    · rw [if_pos h2, firstFailure_cons_false (by simp [h2])]
    · rw [if_neg h2, firstFailure_cons_true (by simp [h2])]
      by_cases h3 : q.ContainerName = ""
      · rw [if_pos h3, firstFailure_cons_false (by simp [h3])]
      · rw [if_neg h3, firstFailure_cons_true (by simp [h3])]
        by_cases h4 : q.StartTime = 0
        · rw [if_pos h4, firstFailure_cons_false (by simp [h4])]
        · rw [if_neg h4, firstFailure_cons_true (by simp [h4])]
          by_cases h5 : q.EndTime = 0
          · rw [if_pos h5, firstFailure_cons_false (by simp [h5])]
          · rw [if_neg h5, firstFailure_cons_true (by simp [h5])]
            by_cases h6 : ¬ q.StartTime < q.EndTime
            · rw [if_pos h6, firstFailure_cons_false (by rw [decide_eq_false_iff_not]; omega)]
            · rw [if_neg h6, firstFailure_cons_true (by rw [decide_eq_true_eq]; omega)]
              rfl

/-- C8: `LogEntry.Validate` returns `nil` exactly when namespace, pod name,
container name are non-empty and the timestamp is non-zero, and otherwise the
error naming the first missing field in that order ("log entry missing
namespace field" / "… pod_name field" / "… container_name field" /
"… time field"); `Query.Validate` returns `nil` exactly when all three
identifying fields are non-empty, both timestamps non-zero, and start is
strictly before end, and otherwise "missing query parameter: <name>" for the
first empty field or zero timestamp, or "query time-interval: start_time must
be earlier than end_time" when start ≥ end (`firstFailure` over the ordered
constraint tables). -/
theorem validators_first_violation (l : LogEntry) (q : Query) :
    (l.Validate = none ↔
      (l.Kubernetes.Namespace ≠ "" ∧ l.Kubernetes.PodName ≠ ""
        ∧ l.Kubernetes.ContainerName ≠ "" ∧ l.Time ≠ 0))
    ∧ l.Validate = firstFailure (logEntryConstraintTable l)
    ∧ (q.Validate = none ↔
      (q.Namespace ≠ "" ∧ q.PodName ≠ "" ∧ q.ContainerName ≠ ""
        ∧ q.StartTime ≠ 0 ∧ q.EndTime ≠ 0 ∧ q.StartTime < q.EndTime))
    ∧ q.Validate = firstFailure (queryConstraintTable q) := by
  refine ⟨?_, logEntry_validate_eq_firstFailure l, ?_,
    query_validate_eq_firstFailure q⟩
  · rw [logEntry_validate_eq_firstFailure l, firstFailure_eq_none]
    simp only [logEntryConstraintTable, List.forall_mem_cons, decide_eq_true_eq]
    tauto
  · rw [query_validate_eq_firstFailure q, firstFailure_eq_none]
    simp only [queryConstraintTable, List.forall_mem_cons, decide_eq_true_eq]
    tauto

/-! ## Metrics middleware (`pkg/server/metrics.go`)

The three Go maps (`map[MetricDimensions]int64` / `float64`) are modelled as
total functions defaulting to 0 — the source's "insert 0 if absent, then
update" is exactly increment-with-default-0.  `float64` arithmetic is
modelled as `ℚ`.  A request completion is the pair (dimensions, elapsed
seconds); a history is the list of completions in order. -/

/-- The dimensions over which request metrics are categorized
(`metrics.go`). -/
structure MetricDimensions where
  Method : String
  Path : String
  StatusCode : Int
deriving DecidableEq

/-- The metrics middleware state: the three metric maps. -/
structure MetricsMiddleware where
  TotalRequests : MetricDimensions → Int
  SumResponseTime : MetricDimensions → ℚ
  AvgResponseTime : MetricDimensions → ℚ

/-- `NewMetricsMiddleware` (`metrics.go`): all three maps empty. -/
def NewMetricsMiddleware : MetricsMiddleware :=
  { TotalRequests := fun _ => 0
    SumResponseTime := fun _ => 0
    AvgResponseTime := fun _ => 0 }

/-- The per-completion update of `MetricsMiddleware.Intercept`
(`metrics.go` lines 713-729): increment the request count of the observed
dimensions, add the elapsed time to their response-time sum, and recompute
their average as sum / total. -/
def MetricsMiddleware.intercept (mw : MetricsMiddleware) (dim : MetricDimensions)
    (elapsed : ℚ) : MetricsMiddleware :=
  let total := fun d => if d = dim then mw.TotalRequests d + 1 else mw.TotalRequests d
  let sum := fun d => if d = dim then mw.SumResponseTime d + elapsed else mw.SumResponseTime d
  { TotalRequests := total
    SumResponseTime := sum
    AvgResponseTime := fun d =>
      if d = dim then sum dim / ((total dim : Int) : ℚ) else mw.AvgResponseTime d }

/-- Run the middleware over a sequence of request completions, starting from
the freshly constructed (empty) state. -/
def runRequests (history : List (MetricDimensions × ℚ)) : MetricsMiddleware :=
  history.foldl (fun mw c => mw.intercept c.1 c.2) NewMetricsMiddleware

lemma runRequests_invariant (history : List (MetricDimensions × ℚ))
    (dim : MetricDimensions) :
    (runRequests history).TotalRequests dim =
        (history.countP fun c => decide (c.1 = dim))
    ∧ (runRequests history).SumResponseTime dim =
        ((history.filter fun c => decide (c.1 = dim)).map Prod.snd).sum
    ∧ (0 < (history.countP fun c => decide (c.1 = dim)) →
        (runRequests history).AvgResponseTime dim =
          (runRequests history).SumResponseTime dim /
            (((runRequests history).TotalRequests dim : Int) : ℚ)) := by
  induction history using List.reverseRecOn with
  | nil => exact ⟨rfl, rfl, fun h => absurd h (by simp)⟩
  | append_singleton l c ih =>
    obtain ⟨ihT, ihS, ihA⟩ := ih
    have hrun : runRequests (l ++ [c]) = (runRequests l).intercept c.1 c.2 := by
      simp [runRequests, List.foldl_append]
    by_cases hd : dim = c.1
    · subst hd
      refine ⟨?_, ?_, ?_⟩
      · simp [hrun, MetricsMiddleware.intercept, ihT, List.countP_append,
          List.countP_cons]
      · simp [hrun, MetricsMiddleware.intercept, ihS, List.filter_append]
      · intro _
        simp [hrun, MetricsMiddleware.intercept, ihT, ihS, List.countP_append,
          List.countP_cons, List.filter_append]
    · have hd' : ¬ dim = c.1 := hd
      have hcount : ((l ++ [c]).countP fun x => decide (x.1 = dim)) =
          (l.countP fun x => decide (x.1 = dim)) := by
        simp [List.countP_append, List.countP_cons]
        intro h
        exact absurd h.symm hd'
      have hfilter : ((l ++ [c]).filter fun x => decide (x.1 = dim)) =
          (l.filter fun x => decide (x.1 = dim)) := by
        simp [List.filter_append]
        intro h
        exact absurd h.symm hd'
      refine ⟨?_, ?_, ?_⟩
      · rw [hcount, ← ihT, hrun]
        simp [MetricsMiddleware.intercept, hd']
      · rw [hfilter, ← ihS, hrun]
        simp [MetricsMiddleware.intercept, hd']
      · intro hpos
        rw [hcount] at hpos
        rw [hcount, hfilter] at *
        rw [hrun]
        simp only [MetricsMiddleware.intercept, if_neg hd']
        rw [ihT, ihS] at *
        exact ihA hpos
    
/-- C9: after any sequence of request completions, for every dimension triple
(method, path, status code): `total_requests` equals the number M of
completed requests observed with those dimensions, `sum_response_time`
equals the sum of their elapsed times, and (once observed, M > 0)
`avg_response_time` equals `sum_response_time / M`; moreover each completion
updates only the three entries of its own dimension triple, leaving every
other dimension's entries unchanged. -/
theorem metrics_middleware_invariant (history : List (MetricDimensions × ℚ)) :
    (∀ dim : MetricDimensions,
      (runRequests history).TotalRequests dim =
          (history.countP fun c => decide (c.1 = dim))
      ∧ (runRequests history).SumResponseTime dim =
          ((history.filter fun c => decide (c.1 = dim)).map Prod.snd).sum
      ∧ (0 < (history.countP fun c => decide (c.1 = dim)) →
          (runRequests history).AvgResponseTime dim =
            (runRequests history).SumResponseTime dim /
              (((runRequests history).TotalRequests dim : Int) : ℚ)))
    ∧ (∀ (mw : MetricsMiddleware) (dim : MetricDimensions) (elapsed : ℚ)
        (d : MetricDimensions), d ≠ dim →
        (mw.intercept dim elapsed).TotalRequests d = mw.TotalRequests d
        ∧ (mw.intercept dim elapsed).SumResponseTime d = mw.SumResponseTime d
        ∧ (mw.intercept dim elapsed).AvgResponseTime d = mw.AvgResponseTime d) := by
  refine ⟨fun dim => runRequests_invariant history dim, ?_⟩
  intro mw dim elapsed d hne
  refine ⟨?_, ?_, ?_⟩ <;> simp [MetricsMiddleware.intercept, hne]

/-- Witness for `metrics_middleware_invariant` after one `GET /metrics 200`
completion taking 1 second. -/
theorem metrics_middleware_invariant_witness :
    (0 < ([(MetricDimensions.mk "GET" "/metrics" 200, (1 : ℚ))].countP
        fun c => decide (c.1 = MetricDimensions.mk "GET" "/metrics" 200)))
    ∧ (runRequests [(MetricDimensions.mk "GET" "/metrics" 200, (1 : ℚ))]).AvgResponseTime
          (MetricDimensions.mk "GET" "/metrics" 200) =
        (runRequests [(MetricDimensions.mk "GET" "/metrics" 200, (1 : ℚ))]).SumResponseTime
            (MetricDimensions.mk "GET" "/metrics" 200) /
          (((runRequests [(MetricDimensions.mk "GET" "/metrics" 200, (1 : ℚ))]).TotalRequests
              (MetricDimensions.mk "GET" "/metrics" 200) : Int) : ℚ)
    ∧ (MetricDimensions.mk "POST" "/write" 200 ≠ MetricDimensions.mk "GET" "/metrics" 200)
    ∧ (NewMetricsMiddleware.intercept (MetricDimensions.mk "GET" "/metrics" 200)
          1).TotalRequests (MetricDimensions.mk "POST" "/write" 200) =
        NewMetricsMiddleware.TotalRequests (MetricDimensions.mk "POST" "/write" 200) :=
  ⟨by decide,
   ((metrics_middleware_invariant
      [(MetricDimensions.mk "GET" "/metrics" 200, (1 : ℚ))]).1
      (MetricDimensions.mk "GET" "/metrics" 200)).2.2 (by decide),
   by decide,
   ((metrics_middleware_invariant
      [(MetricDimensions.mk "GET" "/metrics" 200, (1 : ℚ))]).2
      NewMetricsMiddleware (MetricDimensions.mk "GET" "/metrics" 200) 1
      (MetricDimensions.mk "POST" "/write" 200) (by decide)).1⟩

/-! ## HTTP query handler (`pkg/server/http.go`)

The request's URL query parameters (`url.Values`, a `map[string][]string`)
are modelled as a function from parameter name to the optional list of
supplied values; RFC3339Nano timestamp parsing is an oracle
`parseTime : String → Option Int`; `time.Now().UTC()` is the parameter
`now`.  The bits of the HTTP response the claims observe — status code,
error envelope, and which store calls were made — form `HandlerResponse`. -/

/-- The error of `getQueryParam` on a repeated (or empty-valued) parameter
(`http.go` lines 233-236). -/
def wrongNumberMessage (paramName : String) (n : Nat) : String :=
  "query parameter " ++ paramName ++ " has wrong number of values: was: " ++
    toString n ++ ", expected: 1"

/-- `getQueryParam` (`http.go` lines 227-238). -/
def getQueryParam (paramName : String)
    (queryParams : String → Option (List String)) : Except String String :=
  match queryParams paramName with
  | none => .error ("missing query parameter: " ++ paramName)
  | some paramValues =>
    if paramValues.length ≠ 1 then
      .error (wrongNumberMessage paramName paramValues.length)
    else
      -- `paramValues[0]`, safe because the length is exactly 1 here
      .ok (paramValues.headD "")

/-- `queryFromRequest` (`http.go` lines 186-225): extract the four required
parameters, parse `start_time`, and default `end_time` to the current time
when it is absent (any `getQueryParam` failure for `end_time` selects the
default). -/
def queryFromRequest (queryParams : String → Option (List String))
    (parseTime : String → Option Int) (now : Int) : Except String Query := do
  let ns ← getQueryParam "namespace" queryParams
  let podName ← getQueryParam "pod_name" queryParams
  let containerName ← getQueryParam "container_name" queryParams
  let startTimeStr ← getQueryParam "start_time" queryParams
  let startTime ← match parseTime startTimeStr with
    | some t => Except.ok t
    | none => Except.error "failed to parse start_time"
  let endTime ← match getQueryParam "end_time" queryParams with
    | Except.ok endTimeStr =>
      match parseTime endTimeStr with
      | some t => Except.ok t
      | none => Except.error "failed to parse end_time"
    | Except.error _ => Except.ok now
  Except.ok { Namespace := ns, PodName := podName, ContainerName := containerName,
              StartTime := startTime, EndTime := endTime }

/-- The observable outcome of `HTTPServer.queryGetHandler`: HTTP status,
error envelope (message, detail), and whether `logStore.Ready` /
`logStore.Query` were invoked. -/
structure HandlerResponse where
  status : Nat
  message : Option String
  detail : String
  readyProbed : Bool
  storeQueried : Bool
deriving DecidableEq

/-- `HTTPServer.queryGetHandler` (`http.go` lines 141-178): extract and
validate the query (400 `"invalid query"` on failure, store untouched),
probe readiness (503 on failure), run the store query (500 on failure,
200 on success). -/
def queryGetHandler (queryParams : String → Option (List String))
    (parseTime : String → Option Int) (now : Int)
    (readyErr : Option String)
    (storeQuery : Query → Except String (List LogRow)) : HandlerResponse :=
  match queryFromRequest queryParams parseTime now with
  | .error e =>
    { status := 400, message := some "invalid query", detail := e,
      readyProbed := false, storeQueried := false }
  | .ok q =>
    match q.Validate with
    | some e =>
      { status := 400, message := some "invalid query", detail := e,
        readyProbed := false, storeQueried := false }
    | none =>
      match readyErr with
      | some e =>
        { status := 503, message := some "data store is not ready", detail := e,
          readyProbed := true, storeQueried := false }
      | none =>
        match storeQuery q with
        | .error e =>
          { status := 500, message := some "query execution error", detail := e,
            readyProbed := true, storeQueried := true }
        | .ok _ =>
          { status := 200, message := none, detail := "",
            readyProbed := true, storeQueried := true }

lemma getQueryParam_duplicate (paramName : String)
    (queryParams : String → Option (List String)) (vs : List String)
    (hvs : queryParams paramName = some vs) (hdup : 2 ≤ vs.length) :
    getQueryParam paramName queryParams =
      .error (wrongNumberMessage paramName vs.length) := by
  unfold getQueryParam
  rw [hvs]
  dsimp only
  rw [if_pos (by omega)]

lemma getQueryParam_ok_exists (paramName : String)
    (queryParams : String → Option (List String)) (vs : List String)
    (hvs : queryParams paramName = some vs) (hone : vs.length = 1) :
    getQueryParam paramName queryParams = .ok (vs.headD "") := by
  unfold getQueryParam
  rw [hvs]
  dsimp only
  rw [if_neg (by omega)]

/-- C10: for every required GET /query parameter (namespace, pod_name,
container_name, start_time), if the request's URL supplies that parameter
more than once then parameter extraction fails with the error
`"query parameter <name> has wrong number of values: was: <n>, expected: 1"`
(provided extraction of the parameters before it in the fixed order
succeeded, so that this is the failure `queryFromRequest` reports), and the
handler responds 400 with message `"invalid query"` and that detail; the
store is never invoked (neither `Ready` nor `Query`). -/
theorem queryGetHandler_duplicate_param
    (queryParams : String → Option (List String))
    (parseTime : String → Option Int) (now : Int) (readyErr : Option String)
    (storeQuery : Query → Except String (List LogRow)) :
    (∀ (paramName : String) (vs : List String),
        queryParams paramName = some vs → 2 ≤ vs.length →
        getQueryParam paramName queryParams =
          .error (wrongNumberMessage paramName vs.length))
    ∧ (∀ e : String, queryFromRequest queryParams parseTime now = .error e →
        queryGetHandler queryParams parseTime now readyErr storeQuery =
          { status := 400, message := some "invalid query", detail := e,
            readyProbed := false, storeQueried := false })
    ∧ (∀ vs, queryParams "namespace" = some vs → 2 ≤ vs.length →
        queryFromRequest queryParams parseTime now =
          .error (wrongNumberMessage "namespace" vs.length))
    ∧ (∀ a vs, getQueryParam "namespace" queryParams = Except.ok a →
        queryParams "pod_name" = some vs → 2 ≤ vs.length →
        queryFromRequest queryParams parseTime now =
          .error (wrongNumberMessage "pod_name" vs.length))
    ∧ (∀ a b vs, getQueryParam "namespace" queryParams = Except.ok a →
        getQueryParam "pod_name" queryParams = Except.ok b →
        queryParams "container_name" = some vs → 2 ≤ vs.length →
        queryFromRequest queryParams parseTime now =
          .error (wrongNumberMessage "container_name" vs.length))
    ∧ (∀ a b c vs, getQueryParam "namespace" queryParams = Except.ok a →
        getQueryParam "pod_name" queryParams = Except.ok b →
        getQueryParam "container_name" queryParams = Except.ok c →
        queryParams "start_time" = some vs → 2 ≤ vs.length →
        queryFromRequest queryParams parseTime now =
          .error (wrongNumberMessage "start_time" vs.length)) := by
  refine ⟨fun paramName vs hvs hdup =>
      getQueryParam_duplicate paramName queryParams vs hvs hdup,
    ?_, ?_, ?_, ?_, ?_⟩
  · intro e h
    unfold queryGetHandler
    rw [h]
  · intro vs hvs hdup
    unfold queryFromRequest
    rw [getQueryParam_duplicate "namespace" queryParams vs hvs hdup]
    rfl
  · intro a vs hns hvs hdup
    unfold queryFromRequest
    rw [hns, getQueryParam_duplicate "pod_name" queryParams vs hvs hdup]
    rfl
  · intro a b vs hns hpod hvs hdup
    unfold queryFromRequest
    rw [hns, hpod, getQueryParam_duplicate "container_name" queryParams vs hvs hdup]
    rfl
  · intro a b c vs hns hpod hctr hvs hdup
    unfold queryFromRequest
    rw [hns, hpod, hctr,
      getQueryParam_duplicate "start_time" queryParams vs hvs hdup]
    rfl

/-- Witness for `queryGetHandler_duplicate_param`: a request supplying
`namespace` twice is rejected with 400 "invalid query" and the store is not
touched. -/
theorem queryGetHandler_duplicate_param_witness :
    queryFromRequest (fun s => if s = "namespace" then some ["a", "b"] else none)
        (fun _ => none) 0 =
      .error (wrongNumberMessage "namespace" 2)
    ∧ queryGetHandler (fun s => if s = "namespace" then some ["a", "b"] else none)
        (fun _ => none) 0 none (fun _ => Except.ok []) =
      { status := 400, message := some "invalid query",
        detail := wrongNumberMessage "namespace" 2,
        readyProbed := false, storeQueried := false } :=
  ⟨(queryGetHandler_duplicate_param
      (fun s => if s = "namespace" then some ["a", "b"] else none)
      (fun _ => none) 0 none (fun _ => Except.ok [])).2.2.1
      ["a", "b"] (by decide) (by decide),
   (queryGetHandler_duplicate_param
      (fun s => if s = "namespace" then some ["a", "b"] else none)
      (fun _ => none) 0 none (fun _ => Except.ok [])).2.1
      (wrongNumberMessage "namespace" 2)
      ((queryGetHandler_duplicate_param
        (fun s => if s = "namespace" then some ["a", "b"] else none)
        (fun _ => none) 0 none (fun _ => Except.ok [])).2.2.1
        ["a", "b"] (by decide) (by decide))⟩
